import Mathlib

/-!
Shallow embedding of the model-to-integrator adapter implemented in
examples/stokes/source/stokes_ida.cc (class Stokes, instantiated at dim = 2).

Machine doubles are modelled as exact rationals, distributed block vectors as
total functions from global degree-of-freedom indices to rationals, and global
sparse matrices as total functions on pairs of indices.  Quantities produced by
external deal.II collaborators (FEValues basis data per quadrature point, the
ConstraintMatrix local-to-global matrix scatter, the Kelly error estimator, the
SolutionTransfer interpolation, the FGMRES iteration itself) enter the model as
explicit data or function parameters.  The control flow of each entry point,
the arithmetic of every assembled entry, and all constraint handling are
translated from the source.
-/

namespace StokesIda

/-- A distributed block vector, indexed by global degree-of-freedom number. -/
abbrev Vec : Type := ℕ → ℚ

/-- A global sparse matrix, indexed by row and column. -/
abbrev Mat : Type := ℕ → ℕ → ℚ

/-- The closed affine constraint set (a ConstraintMatrix): each degree of
freedom is either free, or equal to an affine combination of other degrees of
freedom plus an inhomogeneity. -/
structure Constraints where
  isConstrained : ℕ → Bool
  entries : ℕ → List (ℕ × ℚ)
  inhom : ℕ → ℚ

/-- ConstraintMatrix distribute: overwrite every constrained entry of the
vector with the value of its affine relation evaluated on the vector. -/
def Constraints.distribute (C : Constraints) (v : Vec) : Vec := fun j =>
  if C.isConstrained j then
    C.inhom j + ((C.entries j).map (fun e => e.2 * v e.1)).sum
  else v j

/-- Stokes set_constrained_dofs_to_zero: zero every locally owned constrained
entry of the vector (the loop over global_partitioning). -/
def set_constrained_dofs_to_zero (owned : ℕ → Bool) (C : Constraints)
    (v : Vec) : Vec :=
  fun j => if owned j && C.isConstrained j then 0 else v j

/-- Tensor of rank 1 in dimension 2 (a velocity value). -/
structure Tensor1 where
  x : ℚ
  y : ℚ

/-- Symmetric tensor of rank 2 in dimension 2. -/
structure SymTensor2 where
  xx : ℚ
  xy : ℚ
  yy : ℚ

/-- Full tensor of rank 2 in dimension 2 (a velocity gradient). -/
structure Tensor2 where
  xx : ℚ
  xy : ℚ
  yx : ℚ
  yy : ℚ

/-- Dot product of two rank-1 tensors. -/
def dot1 (a b : Tensor1) : ℚ := a.x * b.x + a.y * b.y

/-- Double contraction of two symmetric rank-2 tensors (the deal.II product of
two SymmetricTensor values). -/
def symDDot (a b : SymTensor2) : ℚ :=
  a.xx * b.xx + 2 * (a.xy * b.xy) + a.yy * b.yy

/-- scalar_product of two full rank-2 tensors: entrywise products summed. -/
def scalar_product (a b : Tensor2) : ℚ :=
  a.xx * b.xx + a.xy * b.xy + a.yx * b.yx + a.yy * b.yy

/-- Per-cell finite element data delivered by FEValues on one locally owned
cell: local dof count, quadrature size, the global index of each local dof,
the quadrature weights times the Jacobian determinant, and the basis-function
values read by the assembler at each quadrature point (first argument the
quadrature point, second argument the local dof). -/
structure CellFE where
  dofs_per_cell : ℕ
  n_q_points : ℕ
  dofIdx : ℕ → ℕ
  JxW : ℕ → ℚ
  phi_u : ℕ → ℕ → Tensor1
  sym_grads_phi_u : ℕ → ℕ → SymTensor2
  grads_phi_u : ℕ → ℕ → Tensor2
  div_phi_u : ℕ → ℕ → ℚ
  phi_p : ℕ → ℕ → ℚ

/-- ConstraintMatrix distribute_local_to_global for a local right-hand-side
vector: each local entry is added to its resolved global rows (an
unconstrained row receives the value itself, a constrained row forwards it,
scaled, to its constraining entries). -/
def dlgVecCell (C : Constraints) (c : CellFE) (lv : ℕ → ℚ) (dst : Vec) : Vec :=
  (List.range c.dofs_per_cell).foldl
    (fun d i =>
      let row := c.dofIdx i
      if C.isConstrained row then
        (C.entries row).foldl
          (fun d2 e => fun k => if k = e.1 then d2 k + e.2 * lv i else d2 k) d
      else fun k => if k = row then d k + lv i else d k)
    dst

/-- The Discretization state of the Stokes object read by the adapter entry
points: total dof count, the block split (after component-wise renumbering the
velocity dofs occupy indices below nu and the pressure dofs the rest), the
locally owned index set, the constraint set as rebuilt for a given time
(hanging-node constraints plus Dirichlet data evaluated at that time), the
locally owned cells with their FEValues data, the externally evaluated
residual integrand (weak form of the momentum and incompressibility equations
plus forcing, as a function of the cell, the distributed solution and the
solution time-derivative), the external ConstraintMatrix matrix
local-to-global scatter, and the viscosity mu. -/
structure Disc where
  n_dofs : ℕ
  nu : ℕ
  owned : ℕ → Bool
  constraintsAt : ℚ → Constraints
  cells : List CellFE
  cellResRhs : CellFE → Vec → Vec → ℕ → ℚ
  scatterMat : Constraints → CellFE → (ℕ → ℕ → ℚ) → Mat → Mat
  mu : ℚ

/-- Stokes residual: refresh the constraint set at time t, produce a
constraint-consistent copy of y, assemble the weak-form residual cell by cell
through the constrained scatter into a zeroed vector, then overwrite every
locally owned constrained entry with (y minus the constraint-consistent copy
of y); the status returned to the integrator is always 0. -/
def residual (D : Disc) (t : ℚ) (y y_dot : Vec) : ℤ × Vec :=
  let C := D.constraintsAt t
  let distributed_solution := C.distribute y
  let assembled := D.cells.foldl
    (fun d c => dlgVecCell C c (D.cellResRhs c distributed_solution y_dot) d)
    (fun _ => 0)
  let dst : Vec := fun j =>
    if D.owned j && C.isConstrained j then y j - distributed_solution j
    else assembled j
  (0, dst)

/-- Claim C1: after assembly, every locally owned constrained degree of
freedom j holds residual entry (y j minus the constraint-distributed copy of y
at j); consequently the entry is exactly zero whenever y already satisfies all
affine constraints. -/
theorem claim_C1 (D : Disc) (t : ℚ) (y y_dot : Vec) (j : ℕ)
    (hown : D.owned j = true)
    (hcon : (D.constraintsAt t).isConstrained j = true) :
    (residual D t y y_dot).2 j = y j - (D.constraintsAt t).distribute y j ∧
    ((D.constraintsAt t).distribute y = y → (residual D t y y_dot).2 j = 0) := by
  have hmain : (residual D t y y_dot).2 j
      = y j - (D.constraintsAt t).distribute y j := by
    simp [residual, hown, hcon]
  refine ⟨hmain, fun hsat => ?_⟩
  rw [hmain, hsat, sub_self]

/-- A one-dof, one-quadrature-point cell used in the concrete instances. -/
def cellW : CellFE where
  dofs_per_cell := 1
  n_q_points := 1
  dofIdx := fun _ => 0
  JxW := fun _ => 1
  phi_u := fun _ _ => ⟨1, 0⟩
  sym_grads_phi_u := fun _ _ => ⟨0, 0, 0⟩
  grads_phi_u := fun _ _ => ⟨0, 0, 0, 0⟩
  div_phi_u := fun _ _ => 0
  phi_p := fun _ _ => 0

/-- A constraint set fixing dof 1 to the value 5 (a Dirichlet constraint with
no dependence on other dofs). -/
def Cw : Constraints where
  isConstrained := fun j => j == 1
  entries := fun _ => []
  inhom := fun j => if j = 1 then 5 else 0

/-- A two-dof concrete Discretization instance (one velocity dof, one pressure
dof, everything locally owned) whose matrix scatter adds local entries
directly into the matching global positions. -/
def Dw : Disc where
  n_dofs := 2
  nu := 1
  owned := fun _ => true
  constraintsAt := fun _ => Cw
  cells := [cellW]
  cellResRhs := fun _ _ _ _ => 0
  scatterMat := fun _ _ lm M => fun i j => M i j + lm i j
  mu := 1

/-- Witness for claim C1: in the concrete instance, dof 1 is owned and
constrained, and an input satisfying its constraint gets residual entry 0. -/
theorem claim_C1_witness :
    (residual Dw 0 (fun _ => 5) (fun _ => 0)).2 1 = 0 := by
  have hsat : (Dw.constraintsAt 0).distribute (fun _ => 5) = fun _ => 5 := by
    funext j
    by_cases hj : j = 1 <;> simp [Dw, Cw, Constraints.distribute, hj]
  exact (claim_C1 Dw 0 (fun _ => 5) (fun _ => 0) 1 rfl rfl).2 hsat

/-- The integrand of one quadrature point of the local Jacobian block, as
written inside the assembly loop of assemble_jacobian_matrix. -/
def jacQTerm (mu alpha : ℚ) (c : CellFE) (q i j : ℕ) : ℚ :=
  (alpha * dot1 (c.phi_u q i) (c.phi_u q j)
    + mu * symDDot (c.sym_grads_phi_u q i) (c.sym_grads_phi_u q j)
    - c.div_phi_u q i * c.phi_p q j
    - c.phi_p q i * c.div_phi_u q j) * c.JxW q

/-- The integrand of one quadrature point of the local preconditioner block,
as written inside the assembly loop of assemble_jacobian_matrix. -/
def precQTerm (mu alpha : ℚ) (c : CellFE) (q i j : ℕ) : ℚ :=
  ((1 / alpha) * dot1 (c.phi_u q i) (c.phi_u q j)
    + mu * scalar_product (c.grads_phi_u q i) (c.grads_phi_u q j)
    + (1 / mu) * (c.phi_p q i * c.phi_p q j)) * c.JxW q

/-- The local Jacobian block of one cell: the quadrature loop accumulating
jacQTerm into a zero-initialized local matrix, as in the source. -/
def cell_matrix (mu alpha : ℚ) (c : CellFE) : ℕ → ℕ → ℚ :=
  (List.range c.n_q_points).foldl
    (fun M q => fun i j => M i j + jacQTerm mu alpha c q i j)
    (fun _ _ => 0)

/-- The local preconditioner block of one cell: the quadrature loop
accumulating precQTerm into a zero-initialized local matrix. -/
def cell_prec (mu alpha : ℚ) (c : CellFE) : ℕ → ℕ → ℚ :=
  (List.range c.n_q_points).foldl
    (fun M q => fun i j => M i j + precQTerm mu alpha c q i j)
    (fun _ _ => 0)

/-- Accumulating a pointwise function over List.range by foldl equals the
initial matrix plus the finite sum of the per-index contributions. -/
theorem foldl_range_add_apply (f : ℕ → ℕ → ℕ → ℚ) (M0 : ℕ → ℕ → ℚ)
    (n i j : ℕ) :
    ((List.range n).foldl (fun M q => fun i j => M i j + f q i j) M0) i j
      = M0 i j + ∑ q ∈ Finset.range n, f q i j := by
  induction n generalizing M0 with
  | zero => simp
  | succ n ih =>
      rw [List.range_succ, List.foldl_append]
      simp only [List.foldl_cons, List.foldl_nil, Finset.sum_range_succ]
      rw [ih]
      ring

/-- The local Jacobian entries written as the claim states them: the
quadrature-weighted sum of
alpha (phi_u i . phi_u j) + mu (sym_grad i : sym_grad j)
- (div i)(phi_p j) - (phi_p i)(div j). -/
def cellJacSpec (mu alpha : ℚ) (c : CellFE) (i j : ℕ) : ℚ :=
  ∑ q ∈ Finset.range c.n_q_points,
    (alpha * dot1 (c.phi_u q i) (c.phi_u q j)
      + mu * symDDot (c.sym_grads_phi_u q i) (c.sym_grads_phi_u q j)
      - c.div_phi_u q i * c.phi_p q j
      - c.phi_p q i * c.div_phi_u q j) * c.JxW q

/-- The local preconditioner entries written as the claim states them: the
quadrature-weighted sum of
(1/alpha)(phi_u i . phi_u j) + mu (grad i : grad j) + (1/mu)(phi_p i phi_p j). -/
def cellPrecSpec (mu alpha : ℚ) (c : CellFE) (i j : ℕ) : ℚ :=
  ∑ q ∈ Finset.range c.n_q_points,
    ((1 / alpha) * dot1 (c.phi_u q i) (c.phi_u q j)
      + mu * scalar_product (c.grads_phi_u q i) (c.grads_phi_u q j)
      + (1 / mu) * (c.phi_p q i * c.phi_p q j)) * c.JxW q

/-- The imperative quadrature loop for the local Jacobian computes exactly the
closed-form quadrature sum. -/
theorem cell_matrix_eq_spec (mu alpha : ℚ) (c : CellFE) :
    cell_matrix mu alpha c = cellJacSpec mu alpha c := by
  funext i j
  rw [cell_matrix, foldl_range_add_apply (jacQTerm mu alpha c)]
  simp [cellJacSpec, jacQTerm]

/-- The imperative quadrature loop for the local preconditioner computes
exactly the closed-form quadrature sum. -/
theorem cell_prec_eq_spec (mu alpha : ℚ) (c : CellFE) :
    cell_prec mu alpha c = cellPrecSpec mu alpha c := by
  funext i j
  rw [cell_prec, foldl_range_add_apply (precQTerm mu alpha c)]
  simp [cellPrecSpec, precQTerm]

/-- The pair of assembled global block matrices held by the Stokes object. -/
structure MatrixState where
  jacobian_matrix : Mat
  jacobian_preconditioner_matrix : Mat

/-- The algebraic preconditioner attached to an inner solve: algebraic
multigrid or point Jacobi, each recording the matrix it was initialized on. -/
inductive PrecDesc where
  | amg (m : Mat)
  | jacobi (m : Mat)

/-- A deal.II LinearOperator expression as composed in the source: a wrapped
matrix block, a scalar multiple, a composition, the null operator (recording
the operator whose shape it copies), or an inverse_operator with an inner CG
solve and an algebraic preconditioner. -/
inductive OpExpr where
  | mat (m : Mat)
  | smul (a : ℚ) (e : OpExpr)
  | comp (e f : OpExpr)
  | nullOp (like : OpExpr)
  | inv (e : OpExpr) (p : PrecDesc)

/-- A two-by-two block operator. -/
structure BlockOp where
  b00 : OpExpr
  b01 : OpExpr
  b10 : OpExpr
  b11 : OpExpr

/-- The velocity-velocity block view of a global matrix whose first nu indices
are velocity dofs. -/
def block00 (nu : ℕ) (M : Mat) : Mat := fun i j => M i j

/-- The velocity-pressure block view. -/
def block01 (nu : ℕ) (M : Mat) : Mat := fun i j => M i (nu + j)

/-- The pressure-velocity block view. -/
def block10 (nu : ℕ) (M : Mat) : Mat := fun i j => M (nu + i) j

/-- The pressure-pressure block view. -/
def block11 (nu : ℕ) (M : Mat) : Mat := fun i j => M (nu + i) (nu + j)

/-- The operators-setup tail of assemble_jacobian_matrix, translated from the
source: wrap the blocks of the assembled Jacobian J and preconditioner matrix
P in linear operators, build the AMG preconditioner on the velocity-velocity
block of P and the Jacobi preconditioner on the pressure-pressure block of P,
take A_inv as the inner CG solve with the velocity-velocity block of J
preconditioned by that AMG, Schur_inv as the inner CG solve with the
pressure-pressure block of P preconditioned by that Jacobi, and compose the
Jacobian block operator [[A, Bt], [B, 0 times the pressure-pressure block of
J]] and the preconditioner block operator
[[A_inv, null], [Schur_inv after B after A_inv, minus Schur_inv]]. -/
def composed_operators (nu : ℕ) (J P : Mat) : BlockOp × BlockOp :=
  let A := OpExpr.mat (block00 nu J)
  let Bt := OpExpr.mat (block01 nu J)
  let B := OpExpr.mat (block10 nu J)
  let ZeroP := OpExpr.smul 0 (OpExpr.mat (block11 nu J))
  let Mp := OpExpr.mat (block11 nu P)
  let A_inv := OpExpr.inv A (PrecDesc.amg (block00 nu P))
  let Schur_inv := OpExpr.inv Mp (PrecDesc.jacobi (block11 nu P))
  (⟨A, Bt, B, ZeroP⟩,
   ⟨A_inv, OpExpr.nullOp Bt,
    OpExpr.comp (OpExpr.comp Schur_inv B) A_inv, OpExpr.smul (-1) Schur_inv⟩)

/-- Stokes assemble_jacobian_matrix.  Steps, in source order: zero the global
Jacobian (the global preconditioner matrix is NOT cleared), refresh the
constraint set at time t, loop over the locally owned cells assembling the
local Jacobian and preconditioner blocks and scattering both through the
constrained local-to-global transform, then overwrite the diagonal entry of
every locally owned constrained row of the Jacobian with exactly 1, and
finally compose the block operators through composed_operators.  The solution
and solution_dot arguments only refresh ghosted copies and do not influence
any assembled entry.  Returns the new matrix state, the Jacobian block
operator and the preconditioner block operator. -/
def assemble_jacobian_matrix (D : Disc) (t : ℚ) (y y_dot : Vec) (alpha : ℚ)
    (st : MatrixState) : MatrixState × BlockOp × BlockOp :=
  let C := D.constraintsAt t
  let start : Mat × Mat := (fun _ _ => 0, st.jacobian_preconditioner_matrix)
  let assembled := D.cells.foldl
    (fun (MP : Mat × Mat) c =>
      (D.scatterMat C c (cell_matrix D.mu alpha c) MP.1,
       D.scatterMat C c (cell_prec D.mu alpha c) MP.2))
    start
  let J : Mat := fun i j =>
    if i = j ∧ D.owned i = true ∧ C.isConstrained i = true then 1
    else assembled.1 i j
  let P : Mat := assembled.2
  (⟨J, P⟩, composed_operators D.nu J P)

/-- Stokes setup_jacobian: delegate to assemble_jacobian_matrix and return
status 0 unconditionally. -/
def setup_jacobian (D : Disc) (t : ℚ) (src_yy src_yp : Vec) (alpha : ℚ)
    (st : MatrixState) : ℤ × (MatrixState × BlockOp × BlockOp) :=
  (0, assemble_jacobian_matrix D t src_yy src_yp alpha st)

/-- Claim C10: the residual evaluation and the Jacobian setup entry points
always return status 0, for every input. -/
theorem claim_C10 (D : Disc) (t : ℚ) (y y_dot : Vec) (alpha : ℚ)
    (st : MatrixState) :
    (residual D t y y_dot).1 = 0 ∧
    (setup_jacobian D t y y_dot alpha st).1 = 0 :=
  ⟨rfl, rfl⟩

/-- A fold of a pair whose components evolve independently equals the pair of
the two component folds. -/
theorem foldl_prod {α β γ : Type _} (f : β → α → β) (g : γ → α → γ) :
    ∀ (l : List α) (b : β) (c : γ),
      (l.foldl (fun p a => (f p.1 a, g p.2 a)) (b, c)) = (l.foldl f b, l.foldl g c) := by
  intro l
  induction l with
  | nil => intro b c; rfl
  | cons x xs ih => intro b c; simpa using ih (f b x) (g c x)

/-- The global Jacobian as claim C4 states it: the constrained scatter of the
closed-form per-cell Jacobian matrices into a zeroed global matrix, followed
by forcing every locally owned constrained diagonal entry to exactly 1. -/
def jacobianSpec (D : Disc) (C : Constraints) (alpha : ℚ) : Mat :=
  let J := D.cells.foldl
    (fun M c => D.scatterMat C c (cellJacSpec D.mu alpha c) M) (fun _ _ => 0)
  fun i j =>
    if i = j ∧ D.owned i = true ∧ C.isConstrained i = true then 1 else J i j

/-- The global preconditioner matrix as claim C4 states it: the constrained
scatter of the closed-form per-cell preconditioner matrices into a zeroed
global matrix. -/
def preconditionerSpec (D : Disc) (C : Constraints) (alpha : ℚ) : Mat :=
  D.cells.foldl
    (fun M c => D.scatterMat C c (cellPrecSpec D.mu alpha c) M) (fun _ _ => 0)

/-- The assembled Jacobian matrix does not depend on the incoming matrix state
(it is cleared before assembly) and equals the claimed constrained scatter of
the closed-form cell matrices with unit diagonals on owned constrained rows. -/
theorem assemble_jacobian_matrix_eq_spec (D : Disc) (t : ℚ) (y y_dot : Vec)
    (alpha : ℚ) (st : MatrixState) :
    (assemble_jacobian_matrix D t y y_dot alpha st).1.jacobian_matrix
      = jacobianSpec D (D.constraintsAt t) alpha := by
  simp only [assemble_jacobian_matrix, jacobianSpec]
  rw [foldl_prod
    (fun M c => D.scatterMat (D.constraintsAt t) c (cell_matrix D.mu alpha c) M)
    (fun M c => D.scatterMat (D.constraintsAt t) c (cell_prec D.mu alpha c) M)]
  simp only [cell_matrix_eq_spec]

/-- Starting from a freshly reinitialized (all-zero) preconditioner matrix,
one assembly produces exactly the claimed constrained scatter of the
closed-form cell preconditioner matrices. -/
theorem assemble_prec_matrix_from_zero (D : Disc) (t : ℚ) (y y_dot : Vec)
    (alpha : ℚ) (st : MatrixState)
    (hst : st.jacobian_preconditioner_matrix = fun _ _ => 0) :
    (assemble_jacobian_matrix D t y y_dot alpha st).1.jacobian_preconditioner_matrix
      = preconditionerSpec D (D.constraintsAt t) alpha := by
  simp only [assemble_jacobian_matrix, preconditionerSpec, hst]
  rw [foldl_prod
    (fun M c => D.scatterMat (D.constraintsAt t) c (cell_matrix D.mu alpha c) M)
    (fun M c => D.scatterMat (D.constraintsAt t) c (cell_prec D.mu alpha c) M)]
  simp only [cell_prec_eq_spec]

/-- The all-zero matrix state, as left by setup_dofs right after both global
matrices are reinitialized from their sparsity patterns. -/
def stZero : MatrixState := ⟨fun _ _ => 0, fun _ _ => 0⟩

/-- The zero vector. -/
def zeroVec : Vec := fun _ => 0

/-- The result of one Jacobian setup on the concrete instance Dw with
alpha = 2, starting from freshly reinitialized matrices. -/
def onceW : MatrixState × BlockOp × BlockOp :=
  assemble_jacobian_matrix Dw 0 zeroVec zeroVec 2 stZero

/-- The result of a second, identical Jacobian setup on the concrete instance
Dw, starting from the state left by the first. -/
def twiceW : MatrixState × BlockOp × BlockOp :=
  assemble_jacobian_matrix Dw 0 zeroVec zeroVec 2 onceW.1

/-- Claim C3 (demonstration of the code defect): on the concrete instance,
calling the Jacobian setup twice with identical arguments leaves the global
Jacobian bit-identical, but the global preconditioner matrix is never cleared
inside assembly, so its entry (0,0) grows from 1/2 to 1 and the second state
is not bit-identical to the first. -/
theorem claim_C3 :
    twiceW.1.jacobian_matrix = onceW.1.jacobian_matrix ∧
    onceW.1.jacobian_preconditioner_matrix 0 0 = 1 / 2 ∧
    twiceW.1.jacobian_preconditioner_matrix 0 0 = 1 ∧
    twiceW.1.jacobian_preconditioner_matrix 0 0
      ≠ onceW.1.jacobian_preconditioner_matrix 0 0 := by
  have h1 : onceW.1.jacobian_preconditioner_matrix 0 0 = 1 / 2 := by
    norm_num [onceW, stZero, assemble_jacobian_matrix, Dw, cellW,
      cell_prec_eq_spec, cellPrecSpec, dot1, scalar_product,
      Finset.sum_range_one]
  have h2 : twiceW.1.jacobian_preconditioner_matrix 0 0 = 1 := by
    norm_num [twiceW, onceW, stZero, assemble_jacobian_matrix, Dw, cellW,
      cell_prec_eq_spec, cellPrecSpec, dot1, scalar_product,
      Finset.sum_range_one]
  refine ⟨?_, h1, h2, ?_⟩
  · simp only [twiceW, onceW]
    rw [assemble_jacobian_matrix_eq_spec, assemble_jacobian_matrix_eq_spec]
  · rw [h1, h2]; norm_num

/-- Claim C4 (demonstration of the code defect): on the concrete instance, the
first setup does produce the claimed Jacobian (constrained scatter of the
closed-form cell matrices, with the owned constrained diagonal entry equal to
exactly 1) and the claimed preconditioner scatter; but a second setup leaves
the preconditioner matrix different from the claimed scatter, because the
matrix is never cleared inside assembly. -/
theorem claim_C4 :
    onceW.1.jacobian_matrix = jacobianSpec Dw Cw 2 ∧
    onceW.1.jacobian_preconditioner_matrix = preconditionerSpec Dw Cw 2 ∧
    onceW.1.jacobian_matrix 1 1 = 1 ∧
    twiceW.1.jacobian_preconditioner_matrix 0 0
      ≠ preconditionerSpec Dw Cw 2 0 0 := by
  have hspec : preconditionerSpec Dw Cw 2 0 0 = 1 / 2 := by
    norm_num [preconditionerSpec, Dw, cellW, cellPrecSpec, dot1,
      scalar_product, Finset.sum_range_one]
  have h2 : twiceW.1.jacobian_preconditioner_matrix 0 0 = 1 := by
    norm_num [twiceW, onceW, stZero, assemble_jacobian_matrix, Dw, cellW,
      cell_prec_eq_spec, cellPrecSpec, dot1, scalar_product,
      Finset.sum_range_one]
  refine ⟨assemble_jacobian_matrix_eq_spec Dw 0 zeroVec zeroVec 2 stZero,
    assemble_prec_matrix_from_zero Dw 0 zeroVec zeroVec 2 stZero rfl, ?_, ?_⟩
  · simp only [onceW]
    rw [assemble_jacobian_matrix_eq_spec]
    simp [jacobianSpec, Dw, Cw]
  · rw [h2, hspec]; norm_num

/-- Action of an operator expression on a vector.  A wrapped matrix acts
through the ambient matrix-vector product mv, an inverse_operator through the
ambient inner-solve interpretation iv, a scalar multiple scales the output, a
composition chains the applications, and the null operator returns zero. -/
def OpExpr.apply (mv : Mat → Vec → Vec) (iv : OpExpr → PrecDesc → Vec → Vec) :
    OpExpr → Vec → Vec
  | OpExpr.mat m, v => mv m v
  | OpExpr.smul a e, v => fun i => a * OpExpr.apply mv iv e v i
  | OpExpr.comp e f, v => OpExpr.apply mv iv e (OpExpr.apply mv iv f v)
  | OpExpr.nullOp _, _ => fun _ => 0
  | OpExpr.inv e p, v => iv e p v

/-- Claim C7 (amended): the operators composed by every setup are built from
the freshly assembled matrices; the Jacobian operator is [[A, Bt], [B, Z]]
with Z the zero-scaled pressure-pressure block, whose action is identically
zero; the preconditioner operator is lower-triangular
[[A_inv, null], [Schur_inv after B after A_inv, minus Schur_inv]], where the
(0,1) slot is the null (zero-acting) operator, Schur_inv is the inner solve
with the pressure-pressure preconditioner block (Jacobi-preconditioned on
that same block), and A_inv is the inner solve with the velocity-velocity
block of the JACOBIAN, preconditioned by AMG built on the velocity-velocity
preconditioner block. -/
theorem claim_C7 (nu : ℕ) (J P : Mat) (D : Disc) (t : ℚ) (y y_dot : Vec)
    (alpha : ℚ) (st : MatrixState) (mv : Mat → Vec → Vec)
    (iv : OpExpr → PrecDesc → Vec → Vec) (v : Vec) (i : ℕ) :
    (assemble_jacobian_matrix D t y y_dot alpha st).2 =
      composed_operators D.nu
        (assemble_jacobian_matrix D t y y_dot alpha st).1.jacobian_matrix
        (assemble_jacobian_matrix D t y y_dot alpha st).1.jacobian_preconditioner_matrix ∧
    (composed_operators nu J P).1 =
      ⟨OpExpr.mat (block00 nu J), OpExpr.mat (block01 nu J),
       OpExpr.mat (block10 nu J),
       OpExpr.smul 0 (OpExpr.mat (block11 nu J))⟩ ∧
    (composed_operators nu J P).2 =
      ⟨OpExpr.inv (OpExpr.mat (block00 nu J)) (PrecDesc.amg (block00 nu P)),
       OpExpr.nullOp (OpExpr.mat (block01 nu J)),
       OpExpr.comp
         (OpExpr.comp
           (OpExpr.inv (OpExpr.mat (block11 nu P))
             (PrecDesc.jacobi (block11 nu P)))
           (OpExpr.mat (block10 nu J)))
         (OpExpr.inv (OpExpr.mat (block00 nu J)) (PrecDesc.amg (block00 nu P))),
       OpExpr.smul (-1)
         (OpExpr.inv (OpExpr.mat (block11 nu P))
           (PrecDesc.jacobi (block11 nu P)))⟩ ∧
    OpExpr.apply mv iv (composed_operators nu J P).2.b01 v i = 0 ∧
    OpExpr.apply mv iv (composed_operators nu J P).1.b11 v i = 0 ∧
    OpExpr.apply mv iv (composed_operators nu J P).2.b11 v i
      = -(iv (OpExpr.mat (block11 nu P)) (PrecDesc.jacobi (block11 nu P)) v i) ∧
    OpExpr.apply mv iv (composed_operators nu J P).2.b10 v
      = iv (OpExpr.mat (block11 nu P)) (PrecDesc.jacobi (block11 nu P))
          (mv (block10 nu J)
            (iv (OpExpr.mat (block00 nu J)) (PrecDesc.amg (block00 nu P)) v)) := by
  refine ⟨rfl, rfl, rfl, rfl, ?_, ?_, rfl⟩
  · show (0 : ℚ) * _ = 0
    exact zero_mul _
  · show (-1 : ℚ) * _ = _
    exact neg_one_mul _

/-- Claim C7 counterexample: the claim, as stated, requires the (0,0) slot of
the composed preconditioner to be an inner approximate solve with the
velocity-velocity preconditioner block; in the code the solve target of that
slot is the velocity-velocity block of the Jacobian, which on the concrete
instance has entry 2 where the preconditioner block has entry 1/2. -/
theorem claim_C7_counterexample :
    onceW.2.2.b00 ≠
      OpExpr.inv
        (OpExpr.mat (block00 Dw.nu onceW.1.jacobian_preconditioner_matrix))
        (PrecDesc.amg (block00 Dw.nu onceW.1.jacobian_preconditioner_matrix)) := by
  have hJ : onceW.1.jacobian_matrix 0 0 = 2 := by
    norm_num [onceW, stZero, assemble_jacobian_matrix, Dw, Cw, cellW,
      cell_matrix_eq_spec, cellJacSpec, dot1, symDDot, Finset.sum_range_one]
  have hP : onceW.1.jacobian_preconditioner_matrix 0 0 = 1 / 2 := by
    norm_num [onceW, stZero, assemble_jacobian_matrix, Dw, cellW,
      cell_prec_eq_spec, cellPrecSpec, dot1, scalar_product,
      Finset.sum_range_one]
  have hb : onceW.2.2.b00 =
      OpExpr.inv (OpExpr.mat (block00 Dw.nu onceW.1.jacobian_matrix))
        (PrecDesc.amg (block00 Dw.nu onceW.1.jacobian_preconditioner_matrix)) :=
    rfl
  intro h
  rw [hb] at h
  simp only [OpExpr.inv.injEq, OpExpr.mat.injEq] at h
  have h00 := congrFun (congrFun h.1 0) 0
  simp only [block00] at h00
  rw [hJ, hP] at h00
  norm_num at h00

/-- The control and restart parameters of one FGMRES attempt: the iteration
cap and residual tolerance of the SolverControl, plus the restart width and
right-preconditioning flag of the AdditionalData. -/
structure KrylovParams where
  max_steps : ℕ
  tolerance : ℚ
  restart_width : ℕ
  right_preconditioning : Bool

/-- One FGMRES run, supplied by the external solver library: given the
parameters, the block operator, the block preconditioner, the right-hand side
and the current content of the destination vector (the initial guess), it
either converges (ok, carrying the solution written into dst) or throws
SolverControl NoConvergence (error, carrying whatever iterate was left in
dst). -/
abbrev FgmresRun :=
  KrylovParams → BlockOp → BlockOp → Vec → Vec → Except Vec Vec

/-- The inner catch block of solve_jacobian_system: the single retry with
iteration cap equal to the number of Jacobian rows (the system dimension),
tolerance 1e-8 and restart width 50, starting from the iterate d1 left in the
destination vector by the failed first attempt; a second NoConvergence is
caught and becomes the return status 1, success zeroes the constrained
entries of the result and returns status 0. -/
def solve_retry (fgmres : FgmresRun) (D : Disc) (C : Constraints)
    (jacobian_op jacobian_preconditioner_op : BlockOp) (src d1 : Vec) :
    ℤ × Vec :=
  match fgmres ⟨D.n_dofs, 1 / 100000000, 50, true⟩
      jacobian_op jacobian_preconditioner_op src d1 with
  | Except.ok d => (0, set_constrained_dofs_to_zero D.owned C d)
  | Except.error d2 => (1, d2)

/-- Stokes solve_jacobian_system: zero the constrained entries of the output
vector dst, run FGMRES with iteration cap 30, residual tolerance 1e-8 and
restart width 30 against the composed operator pair; on NoConvergence fall
into the catch block solve_retry; on success zero the constrained entries of
the result again and return status 0. -/
def solve_jacobian_system (fgmres : FgmresRun) (D : Disc) (C : Constraints)
    (jacobian_op jacobian_preconditioner_op : BlockOp) (src dst : Vec) :
    ℤ × Vec :=
  let dst0 := set_constrained_dofs_to_zero D.owned C dst
  match fgmres ⟨30, 1 / 100000000, 30, true⟩
      jacobian_op jacobian_preconditioner_op src dst0 with
  | Except.ok d => (0, set_constrained_dofs_to_zero D.owned C d)
  | Except.error d1 =>
    solve_retry fgmres D C jacobian_op jacobian_preconditioner_op src d1

/-- Claim C2: the solve first zeroes the constrained entries of the output
vector and runs FGMRES with iteration cap 30 and tolerance 1e-8; on
non-convergence it retries exactly once with iteration cap equal to the
system dimension and restart width 50; if the retry also fails the status is
1 and no exception escapes (the status is always 0 or 1); on success the
constrained entries of the result are zeroed again and the status is 0. -/
theorem claim_C2 (fgmres : FgmresRun) (D : Disc) (C : Constraints)
    (jop pop : BlockOp) (src dst : Vec) :
    ((solve_jacobian_system fgmres D C jop pop src dst).1 = 0 ∨
     (solve_jacobian_system fgmres D C jop pop src dst).1 = 1) ∧
    (∀ d, fgmres ⟨30, 1 / 100000000, 30, true⟩ jop pop src
        (set_constrained_dofs_to_zero D.owned C dst) = Except.ok d →
      solve_jacobian_system fgmres D C jop pop src dst
        = (0, set_constrained_dofs_to_zero D.owned C d)) ∧
    (∀ d1 d, fgmres ⟨30, 1 / 100000000, 30, true⟩ jop pop src
        (set_constrained_dofs_to_zero D.owned C dst) = Except.error d1 →
      fgmres ⟨D.n_dofs, 1 / 100000000, 50, true⟩ jop pop src d1
        = Except.ok d →
      solve_jacobian_system fgmres D C jop pop src dst
        = (0, set_constrained_dofs_to_zero D.owned C d)) ∧
    (∀ d1 d2, fgmres ⟨30, 1 / 100000000, 30, true⟩ jop pop src
        (set_constrained_dofs_to_zero D.owned C dst) = Except.error d1 →
      fgmres ⟨D.n_dofs, 1 / 100000000, 50, true⟩ jop pop src d1
        = Except.error d2 →
      solve_jacobian_system fgmres D C jop pop src dst = (1, d2)) ∧
    ((solve_jacobian_system fgmres D C jop pop src dst).1 = 0 →
      ∀ j, D.owned j = true → C.isConstrained j = true →
        (solve_jacobian_system fgmres D C jop pop src dst).2 j = 0) := by
  refine ⟨?_, ?_, ?_, ?_, ?_⟩
  · simp only [solve_jacobian_system]
    cases h1 : fgmres ⟨30, 1 / 100000000, 30, true⟩ jop pop src
        (set_constrained_dofs_to_zero D.owned C dst) with
    | ok d => exact Or.inl rfl
    | error d1 =>
        simp only [solve_retry]
        cases h2 : fgmres ⟨D.n_dofs, 1 / 100000000, 50, true⟩ jop pop src d1 with
        | ok d => exact Or.inl rfl
        | error d2 => exact Or.inr rfl
  · intro d h
    simp only [solve_jacobian_system]
    rw [h]
  · intro d1 d h1 h2
    simp only [solve_jacobian_system]
    rw [h1]
    simp only [solve_retry]
    rw [h2]
  · intro d1 d2 h1 h2
    simp only [solve_jacobian_system]
    rw [h1]
    simp only [solve_retry]
    rw [h2]
  · intro h0 j hj hc
    simp only [solve_jacobian_system] at h0 ⊢
    cases h1 : fgmres ⟨30, 1 / 100000000, 30, true⟩ jop pop src
        (set_constrained_dofs_to_zero D.owned C dst) with
    | ok d => simp [set_constrained_dofs_to_zero, hj, hc]
    | error d1 =>
        rw [h1] at h0
        simp only [solve_retry] at h0 ⊢
        cases h2 : fgmres ⟨D.n_dofs, 1 / 100000000, 50, true⟩ jop pop src d1 with
        | ok d => simp [set_constrained_dofs_to_zero, hj, hc]
        | error d2 =>
            rw [h2] at h0
            simp at h0

/-- An FGMRES oracle that never converges: every attempt throws
NoConvergence, leaving the initial guess in the destination vector. -/
def fgmresFail : FgmresRun := fun _ _ _ _ d => Except.error d

/-- Witness for claim C2: with an oracle that fails both attempts on the
concrete instance, the solve returns status 1 with the vector left by the
failed retry, exactly as the double-failure branch of the claim states. -/
theorem claim_C2_witness :
    solve_jacobian_system fgmresFail Dw Cw onceW.2.1 onceW.2.2 zeroVec zeroVec
      = (1, set_constrained_dofs_to_zero Dw.owned Cw zeroVec) :=
  (claim_C2 fgmresFail Dw Cw onceW.2.1 onceW.2.2 zeroVec
    zeroVec).2.2.2.1
    (set_constrained_dofs_to_zero Dw.owned Cw zeroVec)
    (set_constrained_dofs_to_zero Dw.owned Cw zeroVec) rfl rfl

/-- The marking policy handed to the external GridRefinement collaborator. -/
inductive MarkingPolicy where
  | fixedFraction (top bottom : ℚ)
  | fixedNumber (top bottom : ℚ) (cap : ℕ)
  deriving DecidableEq

/-- The mesh mutation executed after marking cells. -/
inductive MeshExec where
  | coarsenAndRefine
  | globalRefine (n : ℕ)
  deriving DecidableEq

/-- Everything solver_should_restart does that is observable by the caller or
by the external collaborators: the returned restart flag, which marking policy
(if any) was handed to GridRefinement, which mesh mutation (if any) was
executed, whether setup_dofs rebuilt the Discretization, which vector pair
(if any) was handed to the SolutionTransfer preparation, and the final
contents of the in/out solution and solution_dot arguments. -/
structure RestartOutcome where
  restart : Bool
  marked : Option MarkingPolicy
  executed : Option MeshExec
  rebuilt : Bool
  prepared : Option (Vec × Vec)
  y_out : Vec
  y_dot_out : Vec

/-- The configuration and collaborators read by solver_should_restart: the two
adaptivity switches, the Kelly threshold, the signed cell budget, the marking
fractions, the current constraint set, the constraint set as rebuilt by
setup_dofs on the mutated mesh, the external Kelly estimator (a vector and a
component mask give the per-cell indicators of this worker), the local maxima
reported by the other MPI ranks, and the external SolutionTransfer
interpolation onto the new mesh. -/
structure AdaptCtx where
  use_space_adaptivity : Bool
  adaptive_refinement : Bool
  kelly_threshold : ℚ
  max_cells : ℤ
  top_fraction : ℚ
  bottom_fraction : ℚ
  constraints : Constraints
  rebuilt_constraints : Constraints
  kelly : Vec → List Bool → List ℚ
  other_ranks_max : List ℚ
  transfer : Vec → Vec

/-- The l-infinity norm of a vector of per-cell indicators: the maximum of the
absolute values, 0 for an empty vector. -/
def linfty_norm (l : List ℚ) : ℚ := l.foldl (fun a x => max a |x|) 0

/-- Stokes solver_should_restart.  With space adaptivity off, return false and
touch nothing.  Otherwise: distribute the constraints into a copy of the
solution, run the Kelly estimator on it with the pressure component masked
out (mask true, true, false in dimension 2), take the l-infinity norm of the
per-cell indicators and reduce it with max across all MPI ranks.  If that
global maximum strictly exceeds the threshold: mark cells with the
fixed-fraction policy when the cell budget is negative, and with the
fixed-number policy capped at the budget otherwise; snapshot sol and sol_dot
(the copies constructed from the distributed vectors are immediately
overwritten by plain assignment from the RAW solution and solution_dot);
prepare the transfer with that snapshot; execute coarsening and refinement if
adaptive refinement is on, otherwise refine globally once; rebuild the
Discretization via setup_dofs; interpolate the snapshot onto the new degrees
of freedom; re-apply the rebuilt constraints to the new solution ONLY (not to
solution_dot); and return true.  Below the threshold, return false. -/
def solver_should_restart (A : AdaptCtx) (t : ℚ) (step_number : ℕ) (h : ℚ)
    (y y_dot : Vec) : RestartOutcome :=
  if A.use_space_adaptivity then
    let distributed_solution := A.constraints.distribute y
    let mask : List Bool := [true, true, false]
    let estimated_error_per_cell := A.kelly distributed_solution mask
    let max_kelly := linfty_norm estimated_error_per_cell
    let mpi_max_kelly := A.other_ranks_max.foldl max max_kelly
    if A.kelly_threshold < mpi_max_kelly then
      let policy :=
        if A.max_cells < 0 then
          MarkingPolicy.fixedFraction A.top_fraction A.bottom_fraction
        else
          MarkingPolicy.fixedNumber A.top_fraction A.bottom_fraction
            A.max_cells.toNat
      let sol := y
      let sol_dot := y_dot
      let execKind :=
        if A.adaptive_refinement then MeshExec.coarsenAndRefine
        else MeshExec.globalRefine 1
      let tmp := A.transfer sol
      let tmp_dot := A.transfer sol_dot
      ⟨true, some policy, some execKind, true, some (sol, sol_dot),
       A.rebuilt_constraints.distribute tmp, tmp_dot⟩
    else
      ⟨false, none, none, false, none, y, y_dot⟩
  else
    ⟨false, none, none, false, none, y, y_dot⟩

/-- Claim C5: with space adaptivity enabled, a restart triggers exactly when
the global maximum (l-infinity over this worker's per-cell indicators, then
max over all other ranks) of the Kelly indicator computed from the
constraint-distributed solution with the pressure component masked out
strictly exceeds the configured threshold; on trigger the marking policy is
fixed-fraction when the cell budget is negative and fixed-number capped at
the budget otherwise, both with the configured fractions, and the call
returns true; when the threshold is not exceeded the call returns false and
changes nothing. -/
theorem claim_C5 (A : AdaptCtx) (t : ℚ) (step_number : ℕ) (h : ℚ)
    (y y_dot : Vec) (huse : A.use_space_adaptivity = true) :
    ((solver_should_restart A t step_number h y y_dot).restart = true ↔
      A.kelly_threshold <
        A.other_ranks_max.foldl max
          (linfty_norm (A.kelly (A.constraints.distribute y)
            [true, true, false]))) ∧
    (A.kelly_threshold <
        A.other_ranks_max.foldl max
          (linfty_norm (A.kelly (A.constraints.distribute y)
            [true, true, false])) →
      (solver_should_restart A t step_number h y y_dot).marked =
        some (if A.max_cells < 0 then
            MarkingPolicy.fixedFraction A.top_fraction A.bottom_fraction
          else
            MarkingPolicy.fixedNumber A.top_fraction A.bottom_fraction
              A.max_cells.toNat)) ∧
    (¬ A.kelly_threshold <
        A.other_ranks_max.foldl max
          (linfty_norm (A.kelly (A.constraints.distribute y)
            [true, true, false])) →
      solver_should_restart A t step_number h y y_dot
        = ⟨false, none, none, false, none, y, y_dot⟩) := by
  by_cases hk : A.kelly_threshold <
      A.other_ranks_max.foldl max
        (linfty_norm (A.kelly (A.constraints.distribute y)
          [true, true, false]))
  · refine ⟨?_, ?_, ?_⟩
    · simp [solver_should_restart, huse, hk]
    · intro _
      simp [solver_should_restart, huse, hk]
    · intro hnk
      exact absurd hk hnk
  · refine ⟨?_, ?_, ?_⟩
    · simp [solver_should_restart, huse, hk]
    · intro hkk
      exact absurd hkk hk
    · intro _
      simp [solver_should_restart, huse, hk]

/-- Claim C8: with space adaptivity disabled, solver_should_restart returns
false and leaves the solution pair, the mesh and the Discretization
untouched: no marking, no mesh mutation, no rebuild, no transfer. -/
theorem claim_C8 (A : AdaptCtx) (t : ℚ) (step_number : ℕ) (h : ℚ)
    (y y_dot : Vec) (hoff : A.use_space_adaptivity = false) :
    solver_should_restart A t step_number h y y_dot
      = ⟨false, none, none, false, none, y, y_dot⟩ := by
  simp [solver_should_restart, hoff]

/-- Claim C6 (amended): during a triggered adaptation the snapshot handed to
the SolutionTransfer preparation is the RAW pair (y, y_dot) — the
constraint-distributed copies are overwritten by plain assignment before
preparation — the mesh mutation is executed (coarsen-and-refine under
adaptive refinement, one global refinement otherwise), the Discretization is
rebuilt, and after interpolation the rebuilt constraints are re-applied to
the new y ONLY: the new y_dot is returned as the bare interpolation. -/
theorem claim_C6 (A : AdaptCtx) (t : ℚ) (step_number : ℕ) (h : ℚ)
    (y y_dot : Vec) (huse : A.use_space_adaptivity = true)
    (htrig : A.kelly_threshold <
      A.other_ranks_max.foldl max
        (linfty_norm (A.kelly (A.constraints.distribute y)
          [true, true, false]))) :
    (solver_should_restart A t step_number h y y_dot).prepared
      = some (y, y_dot) ∧
    (solver_should_restart A t step_number h y y_dot).executed
      = some (if A.adaptive_refinement then MeshExec.coarsenAndRefine
          else MeshExec.globalRefine 1) ∧
    (solver_should_restart A t step_number h y y_dot).rebuilt = true ∧
    (solver_should_restart A t step_number h y y_dot).y_out
      = A.rebuilt_constraints.distribute (A.transfer y) ∧
    (solver_should_restart A t step_number h y y_dot).y_dot_out
      = A.transfer y_dot ∧
    (solver_should_restart A t step_number h y y_dot).restart = true := by
  refine ⟨?_, ?_, ?_, ?_, ?_, ?_⟩ <;>
    simp [solver_should_restart, huse, htrig]

/-- The adaptation context of the concrete counterexample instance: both
adaptivity switches on, threshold 1/100, cell budget 1000, the Dirichlet
constraint set Cw before and after the rebuild, a Kelly estimator returning
the entry of dof 0 as the single indicator, no other ranks, and the identity
interpolation. -/
def A6 : AdaptCtx where
  use_space_adaptivity := true
  adaptive_refinement := true
  kelly_threshold := 1 / 100
  max_cells := 1000
  top_fraction := 3 / 10
  bottom_fraction := 1 / 10
  constraints := Cw
  rebuilt_constraints := Cw
  kelly := fun v _ => [v 0]
  other_ranks_max := []
  transfer := fun v => v

/-- A concrete solution whose unconstrained dof carries 1. -/
def y6 : Vec := fun j => if j = 0 then 1 else 3

/-- A concrete solution derivative whose constrained dof 1 carries 3, while
its constraint value is 5: not constraint-consistent. -/
def yd6 : Vec := fun _ => 3

/-- Claim C6 counterexample: on the concrete triggered adaptation the pair
handed to the transfer preparation is the raw (y6, yd6), although yd6
violates its constraint (entry 3 against constraint value 5), so the snapshot
is NOT in constraint-consistent form; and the returned y_dot is not fixed by
constraint distribution, so constraints were NOT re-applied to the returned
(y, y_dot) pair. -/
theorem claim_C6_counterexample :
    (solver_should_restart A6 0 0 1 y6 yd6).prepared = some (y6, yd6) ∧
    yd6 1 ≠ (A6.constraints.distribute yd6) 1 ∧
    (solver_should_restart A6 0 0 1 y6 yd6).y_dot_out 1 ≠
      (A6.rebuilt_constraints.distribute
        ((solver_should_restart A6 0 0 1 y6 yd6).y_dot_out)) 1 := by
  refine ⟨?_, ?_, ?_⟩ <;>
    norm_num [solver_should_restart, A6, y6, yd6, Cw, Constraints.distribute,
      linfty_norm]

/-- Witness for claim C6: the concrete adaptation instance does trigger, and
the theorem applied there shows the raw pair was handed to preparation. -/
theorem claim_C6_witness :
    (solver_should_restart A6 0 0 1 y6 yd6).prepared = some (y6, yd6) :=
  (claim_C6 A6 0 0 1 y6 yd6 rfl
    (by norm_num [A6, y6, Cw, Constraints.distribute, linfty_norm])).1

/-- Witness for claim C5: on the concrete instance the indicator maximum 1
exceeds the threshold 1/100, so the call reports a restart. -/
theorem claim_C5_witness :
    (solver_should_restart A6 0 0 1 y6 yd6).restart = true :=
  ((claim_C5 A6 0 0 1 y6 yd6 rfl).1).mpr
    (by norm_num [A6, y6, Cw, Constraints.distribute, linfty_norm])

/-- Witness for claim C8: a context identical to A6 except that space
adaptivity is off makes the controller a no-op. -/
theorem claim_C8_witness :
    solver_should_restart
        { A6 with use_space_adaptivity := false } 0 0 1 y6 yd6
      = ⟨false, none, none, false, none, y6, yd6⟩ :=
  claim_C8 { A6 with use_space_adaptivity := false } 0 0 1 y6 yd6 rfl

/-- Stokes differential_components: reinit a vector shaped like the solution,
assign 1 to the whole velocity block and 0 to the whole pressure block, then
zero every locally owned constrained entry. -/
def differential_components (nu : ℕ) (owned : ℕ → Bool) (C : Constraints) :
    Vec :=
  set_constrained_dofs_to_zero owned C (fun j => if j < nu then 1 else 0)

/-- Claim C9: the differential/algebraic mask is 1 on every unconstrained
velocity-block entry, 0 on every pressure-block entry, and 0 on every locally
owned constrained entry regardless of its block. -/
theorem claim_C9 (nu : ℕ) (owned : ℕ → Bool) (C : Constraints) (j : ℕ) :
    (j < nu → C.isConstrained j = false →
      differential_components nu owned C j = 1) ∧
    (nu ≤ j → differential_components nu owned C j = 0) ∧
    (owned j = true → C.isConstrained j = true →
      differential_components nu owned C j = 0) := by
  refine ⟨?_, ?_, ?_⟩
  · intro hj hc
    simp [differential_components, set_constrained_dofs_to_zero, hc, hj]
  · intro hj
    simp [differential_components, set_constrained_dofs_to_zero,
      Nat.not_lt.mpr hj]
  · intro ho hc
    simp [differential_components, set_constrained_dofs_to_zero, ho, hc]

/-- Witness for claim C9: with one velocity dof and the constraint set Cw,
the mask is 1 on the unconstrained velocity dof 0, 0 on the pressure dof 2,
and 0 on the owned constrained dof 1. -/
theorem claim_C9_witness :
    differential_components 1 (fun _ => true) Cw 0 = 1 ∧
    differential_components 1 (fun _ => true) Cw 2 = 0 ∧
    differential_components 1 (fun _ => true) Cw 1 = 0 :=
  ⟨(claim_C9 1 (fun _ => true) Cw 0).1 (by decide) rfl,
   (claim_C9 1 (fun _ => true) Cw 2).2.1 (by decide),
   (claim_C9 1 (fun _ => true) Cw 1).2.2 rfl rfl⟩

end StokesIda
